import Mathlib

/-!
Verification of the reboot scheduler service (`reboot.go`).

The development shallowly embeds the program:

* the calendar arithmetic of Go's `time.Date` (with out-of-range day-of-month
  normalized into adjacent months/years), at second granularity and with the
  local timezone modelled as a fixed civil timeline;
* `time.Parse("15:04", _)` restricted to the hour/minute fields the program uses;
* `calculateSleepDuration`, `loadConfig` and `reboot` as pure functions over
  explicit inputs (the current instant, the configuration, the file system and
  the shutdown command's outcome);
* the concurrent `Execute` service body as a labelled small-step relation over
  an explicit state: the main control activity (status reports and the
  signal-handling `for`/`select` loop), the wait goroutine (duration
  computation, timer arming, the timer/done `select`), the `done` channel,
  the request queue and the clock.  Notably, no rule of the relation ever sets
  `doneSignaled`, because no statement of the source ever closes or sends on
  the `done` channel.
-/

/-- Leap-year test, as in Go's `time` package (`year%4 == 0 && (year%100 != 0
|| year%400 == 0)`); `%` on `Int` agrees with Go's test since only
divisibility by positive constants is checked. -/
def isLeap (y : Int) : Bool :=
  y % 4 == 0 && (y % 100 != 0 || y % 400 == 0)

/-- Length of month `m` of year `y`, for `m` in `1..12` (Go `daysIn`). -/
def daysInMonth (y m : Int) : Int :=
  if m = 2 then (if isLeap y then 29 else 28)
  else if m = 4 ∨ m = 6 ∨ m = 9 ∨ m = 11 then 30
  else 31

/-- Days before month `m` in a common year (Go's `daysBefore` table). -/
def daysBeforeMonthCommon (m : Int) : Int :=
  if m ≤ 1 then 0
  else if m = 2 then 31
  else if m = 3 then 59
  else if m = 4 then 90
  else if m = 5 then 120
  else if m = 6 then 151
  else if m = 7 then 181
  else if m = 8 then 212
  else if m = 9 then 243
  else if m = 10 then 273
  else if m = 11 then 304
  else 334

/-- Days before month `m` of year `y`, counted from January 1 of `y`. -/
def daysBeforeMonth (y m : Int) : Int :=
  daysBeforeMonthCommon m + (if 2 < m ∧ isLeap y then 1 else 0)

/-- Number of leap years in `1..y` (for `y ≥ 0`), extended to all `Int` by
floor division, matching Go's absolute-date arithmetic. -/
def leapYearsThrough (y : Int) : Int :=
  y / 4 - y / 100 + y / 400

/-- Days from 0001-01-01 to `y`-01-01 (negative for years before 1). -/
def daysBeforeYear (y : Int) : Int :=
  365 * (y - 1) + leapYearsThrough (y - 1)

/-- Absolute day number of the civil date `(y, m, d)`, day 0 being 0001-01-01.
`m` is expected in `1..12`; `d` may lie outside `1..daysInMonth y m`, in which
case the formula is linear in `d`, exactly as in Go's `time.Date`
normalization. -/
def dateAbs (y m d : Int) : Int :=
  daysBeforeYear y + daysBeforeMonth y m + (d - 1)

/-- Absolute time in seconds of `(y, m, d, h, mi, sec)` on the civil
timeline. -/
def dateTimeAbs (y m d h mi sec : Int) : Int :=
  86400 * dateAbs y m d + 3600 * h + 60 * mi + sec

/-- A civil instant in the local timezone (the fields `time.Time` exposes to
this program; sub-second precision is irrelevant to it). -/
structure DateTime where
  year : Int
  month : Int
  day : Int
  hour : Int
  minute : Int
  second : Int
  deriving DecidableEq, Repr

/-- Absolute time in seconds of a `DateTime`. -/
def dtAbs (t : DateTime) : Int :=
  dateTimeAbs t.year t.month t.day t.hour t.minute t.second

/-- Numeric value of a decimal digit character, as Go's `getnum`. -/
def digitVal (c : Char) : Option Int :=
  if '0' ≤ c ∧ c ≤ '9' then some ((c.toNat : Int) - 48) else none

/-- Split a character list on a separator character. -/
def splitOnChar (sep : Char) : List Char → List (List Char)
  | [] => [[]]
  | c :: rest =>
    let r := splitOnChar sep rest
    if c = sep then [] :: r else (c :: r.headI) :: r.tail

/-- A one- or two-digit decimal number, as Go's `getnum` with `fixed = false`
reads the hour of the non-padded layout element `15` (`stdHour`) followed by
the next layout element. -/
def twoDigitNum : List Char → Option Int
  | [c] => digitVal c
  | [c1, c2] => do
    let a ← digitVal c1
    let b ← digitVal c2
    pure (10 * a + b)
  | _ => none

/-- An exactly-two-digit decimal number, as Go's `getnum` with `fixed = true`
reads the minute of the zero-padded layout element `04` (`stdZeroMinute`):
a single digit is a parse error. -/
def twoDigitFixed : List Char → Option Int
  | [c1, c2] => do
    let a ← digitVal c1
    let b ← digitVal c2
    pure (10 * a + b)
  | _ => none

/-- Embedding of `time.Parse("15:04", s)` restricted to what the program
uses: the hour and minute on success, `none` on any parse error.  The hour
field `15` is non-fixed (one or two digits), the minute field `04` is fixed
width (exactly two digits), and the range checks hour `0..23`,
minute `0..59` apply. -/
def parseHM (s : String) : Option (Int × Int) :=
  match splitOnChar ':' s.data with
  | [hs, ms] => do
    let h ← twoDigitNum hs
    let m ← twoDigitFixed ms
    if h ≤ 23 ∧ m ≤ 59 then pure (h, m) else none
  | _ => none

/-- The YAML configuration struct of the program (`after_days`, `at`). -/
structure Config where
  AfterDays : Int
  At : String
  deriving DecidableEq, Repr

/-- Embedding of `calculateSleepDuration`, with the impure reads made
explicit: `now` is the value of `time.Now()` and `cfg` the loaded global
config.  Returns the duration `restartDateTime.Sub(now)` in seconds, where
`restartDateTime = time.Date(now.Year(), now.Month(), now.Day()+cfg.AfterDays,
h, mi, 0, 0, now.Location())`; returns `none` where the source calls
`log.Fatalf` on a time-parse error. -/
def calculateSleepDuration (now : DateTime) (cfg : Config) : Option Int :=
  match parseHM cfg.At with
  | none => none
  | some (h, mi) =>
    some (dateTimeAbs now.year now.month (now.day + cfg.AfterDays) h mi 0 - dtAbs now)

/-- Year/month one step back (for day-of-month underflow normalization). -/
def prevYM (y m : Int) : Int × Int :=
  if m ≤ 1 then (y - 1, 12) else (y, m - 1)

/-- Year/month one step forward (for day-of-month overflow normalization). -/
def nextYM (y m : Int) : Int × Int :=
  if 12 ≤ m then (y + 1, 1) else (y, m + 1)

/-- Calendar rollover normalization of a possibly out-of-range day-of-month:
repeatedly move whole months until the day falls inside the month, as Go's
`time.Date` does when handed `now.Day()+AfterDays`. -/
def normDate (y m d : Int) : Int × Int × Int :=
  if d < 1 then
    normDate (prevYM y m).1 (prevYM y m).2 (d + daysInMonth (prevYM y m).1 (prevYM y m).2)
  else if d ≤ daysInMonth y m then (y, m, d)
  else normDate (nextYM y m).1 (nextYM y m).2 (d - daysInMonth y m)
termination_by (if d < 1 then 63 - d else d).toNat
decreasing_by
  · have h1 : 28 ≤ daysInMonth (prevYM y m).1 (prevYM y m).2 ∧
        daysInMonth (prevYM y m).1 (prevYM y m).2 ≤ 31 := by
      unfold daysInMonth; split <;> split <;> omega
    split <;> omega
  · have h1 : 28 ≤ daysInMonth y m ∧ daysInMonth y m ≤ 31 := by
      unfold daysInMonth; split <;> split <;> omega
    split <;> omega

/-- The file system as the program sees it: the contents of `config.yaml`
(`none` when the file does not exist). -/
structure FileSystem where
  configFile : Option String
  deriving DecidableEq

/-- The default configuration file contents written by `loadConfig` when
`config.yaml` does not exist. -/
def defaultConfigContents : String :=
  "after_days: 300\nat: \"23:50\""

/-- Strip leading and trailing spaces. -/
def trimSpaces (l : List Char) : List Char :=
  ((l.dropWhile (· = ' ')).reverse.dropWhile (· = ' ')).reverse

/-- Accumulate decimal digits; `none` on a non-digit. -/
def decimalAux : List Char → Int → Option Int
  | [], acc => some acc
  | c :: rest, acc =>
    match digitVal c with
    | none => none
    | some v => decimalAux rest (10 * acc + v)

/-- An optionally negated decimal integer scalar. -/
def yamlInt (l : List Char) : Option Int :=
  match l with
  | [] => none
  | '-' :: rest => if rest = [] then none else (decimalAux rest 0).map (fun n => -n)
  | _ => decimalAux l 0

/-- Strip one layer of double quotes, when present on both ends. -/
def unquote (l : List Char) : List Char :=
  match l with
  | '"' :: rest =>
    if rest ≠ [] ∧ rest.getLast? = some '"' then rest.dropLast else '"' :: rest
  | _ => l

/-- Split a line at its first colon into key and value. -/
def splitKeyValue : List Char → Option (List Char × List Char)
  | [] => none
  | ':' :: rest => some ([], rest)
  | c :: rest => (splitKeyValue rest).map (fun p => (c :: p.1, p.2))

/-- Model of `yaml.Unmarshal` from `gopkg.in/yaml.v2` restricted to the
program's config struct and to flat `key: value` documents such as the one
the program itself writes: known keys set the corresponding field, unknown
keys are ignored, blank lines are skipped, absent keys leave the field at its
zero value, and a malformed line or non-integer `after_days` is a parse
error (`none`, where the source calls `log.Fatalf`). -/
def yamlUnmarshalConfig (content : String) : Option Config :=
  (splitOnChar '\n' content.data).foldl
    (fun acc line =>
      match acc with
      | none => none
      | some cfg =>
        let t := trimSpaces line
        if t = [] then some cfg
        else
          match splitKeyValue t with
          | none => none
          | some (k, v) =>
            let key := trimSpaces k
            let val := trimSpaces v
            if key = "after_days".data then
              match yamlInt (unquote val) with
              | none => none
              | some n => some { cfg with AfterDays := n }
            else if key = "at".data then
              some { cfg with At := String.mk (unquote val) }
            else some cfg)
    (some { AfterDays := 0, At := "" })

/-- Embedding of `loadConfig`'s configuration handling (the log-file
redirection is irrelevant to the loaded value): if `config.yaml` does not
exist it is created with `defaultConfigContents`, then the file is read and
unmarshalled.  The second component is the loaded config, `none` where the
source exits fatally on a parse error. -/
def loadConfig (fs : FileSystem) : FileSystem × Option Config :=
  match fs.configFile with
  | none =>
    ({ configFile := some defaultConfigContents }, yamlUnmarshalConfig defaultConfigContents)
  | some contents => (fs, yamlUnmarshalConfig contents)

/-- Service states reported to the service control manager
(`svc.StartPending`, `svc.Running`, `svc.StopPending`, `svc.Stopped`). -/
inductive SvcState
  | startPending
  | running
  | stopPending
  | stopped
  deriving DecidableEq, Repr

/-- A status message (`svc.Status`): the state together with whether
Stop/Shutdown controls are accepted (`Accepts: cmdsAccepted`). -/
structure Status where
  state : SvcState
  acceptsStopShutdown : Bool
  deriving DecidableEq, Repr

/-- Control commands delivered on the request channel; `other` stands for any
command the `switch` in the loop has no case for. -/
inductive Cmd
  | interrogate
  | stop
  | shutdown
  | other
  deriving DecidableEq, Repr

/-- Log events emitted by the service body, identified by call site. -/
inductive LogEv
  | starting
  | computedFireTime
  | rebootingSystem
  | rebootSuccess
  | rebootFailed
  | parseTimeFailed
  | stopping
  deriving DecidableEq, Repr

/-- A message on the status channel: a lifecycle report, or the echo of a
request's `CurrentStatus` in answer to an Interrogate. -/
inductive StatusEvent
  | report (st : Status)
  | echo (st : Status)
  deriving DecidableEq, Repr

/-- Control points of the main `Execute` activity:
`m0` before `status <- {StartPending}`, `m1` before `loadConfig()`,
`m2` before `go func…`, `m3` before `status <- {Running, cmdsAccepted}`,
`m4` in the `for`/`select` loop, `m5` after `break loop` before
`status <- {StopPending}`, `m6` after `Execute` returned (the `svc` host
reports Stopped), `m7` before the process exits. -/
inductive MState
  | m0
  | m1
  | m2
  | m3
  | m4
  | m5
  | m6
  | m7
  deriving DecidableEq, Repr

/-- Control points of the wait goroutine: `gNone` not yet spawned, `g0`
before `calculateSleepDuration()`, `g1` before `time.NewTimer`, `g2` in the
`select` on the timer and `done`, `g3` returned. -/
inductive GState
  | gNone
  | g0
  | g1
  | g2
  | g3
  deriving DecidableEq, Repr

/-- Transition labels of the small-step semantics of `Execute`. -/
inductive Label
  | tick (t : Int)
  | enq (c : Cmd)
  | sendStatus (st : Status)
  | acceptCmd (c : Cmd)
  | loadCfg
  | spawn
  | sample (n : DateTime)
  | armTimer
  | fire (ok : Bool)
  | recvDoneMain
  | recvDoneWait
  | frameworkStopped
  | exitProc
  deriving DecidableEq, Repr

/-- The whole state of one `Execute` run: the clock (absolute seconds), the
two activities' control points, the computed duration, the armed timer
deadline, the `done` channel (`doneSignaled`), the queued change requests
(each with the `CurrentStatus` the `svc` host attaches when it delivers the
control), the host's latest reported status, the status messages sent (most
recent first), the number of `reboot()` invocations, the log events (most
recent first) and the exit code if the process has exited. -/
structure ExecState where
  clock : Int
  mstate : MState
  gstate : GState
  dur : Option Int
  timer : Option Int
  doneSignaled : Bool
  pending : List (Cmd × Status)
  lastReported : Status
  statusSent : List StatusEvent
  rebootCalls : Nat
  logs : List LogEv
  exited : Option Nat
  deriving DecidableEq, Repr

/-- `svc.Status{State: svc.StartPending}`. -/
def startPendingStatus : Status := ⟨.startPending, false⟩

/-- `svc.Status{State: svc.Running, Accepts: cmdsAccepted}`. -/
def runningStatus : Status := ⟨.running, true⟩

/-- `svc.Status{State: svc.StopPending}`. -/
def stopPendingStatus : Status := ⟨.stopPending, false⟩

/-- `svc.Status{State: svc.Stopped}` (reported by the `svc` host once
`Execute` returns). -/
def stoppedStatus : Status := ⟨.stopped, false⟩

/-- Small-step semantics of one run of `RebootService.Execute` under loaded
configuration `cfg`, interleaving the main activity, the wait goroutine and
the environment (clock advance, request delivery).  Every rule requires the
process not to have exited (`log.Fatalf`/`os.Exit` end all activities).
`recvDoneMain` and `recvDoneWait` are the two `<-done` receives of the
source; both are guarded by `doneSignaled = true`, and no rule sets
`doneSignaled`, because the source never closes or sends on `done`. -/
inductive Step (cfg : Config) : ExecState → Label → ExecState → Prop
  | tick {s : ExecState} {t : Int} :
      s.exited = none → s.clock ≤ t →
      Step cfg s (.tick t) { s with clock := t }
  | enq {s : ExecState} {c : Cmd} :
      s.exited = none →
      Step cfg s (.enq c) { s with pending := s.pending ++ [(c, s.lastReported)] }
  | sendStart {s : ExecState} :
      s.exited = none → s.mstate = .m0 →
      Step cfg s (.sendStatus startPendingStatus)
        { s with mstate := .m1, lastReported := startPendingStatus,
                 statusSent := .report startPendingStatus :: s.statusSent,
                 logs := .starting :: s.logs }
  | loadCfg {s : ExecState} :
      s.exited = none → s.mstate = .m1 →
      Step cfg s .loadCfg { s with mstate := .m2 }
  | spawn {s : ExecState} :
      s.exited = none → s.mstate = .m2 →
      Step cfg s .spawn { s with mstate := .m3, gstate := .g0 }
  | sendRunning {s : ExecState} :
      s.exited = none → s.mstate = .m3 →
      Step cfg s (.sendStatus runningStatus)
        { s with mstate := .m4, lastReported := runningStatus,
                 statusSent := .report runningStatus :: s.statusSent }
  | acceptInterrogate {s : ExecState} {cs : Status} {rest : List (Cmd × Status)} :
      s.exited = none → s.mstate = .m4 →
      s.pending = (.interrogate, cs) :: rest →
      Step cfg s (.acceptCmd .interrogate)
        { s with pending := rest, lastReported := cs,
                 statusSent := .echo cs :: s.statusSent }
  | acceptStop {s : ExecState} {c : Cmd} {cs : Status} {rest : List (Cmd × Status)} :
      s.exited = none → s.mstate = .m4 →
      s.pending = (c, cs) :: rest → (c = .stop ∨ c = .shutdown) →
      Step cfg s (.acceptCmd c) { s with mstate := .m5, pending := rest }
  | acceptOther {s : ExecState} {cs : Status} {rest : List (Cmd × Status)} :
      s.exited = none → s.mstate = .m4 →
      s.pending = (.other, cs) :: rest →
      Step cfg s (.acceptCmd .other) { s with pending := rest }
  | recvDoneMain {s : ExecState} :
      s.exited = none → s.mstate = .m4 → s.doneSignaled = true →
      Step cfg s .recvDoneMain { s with mstate := .m5 }
  | sendStopPending {s : ExecState} :
      s.exited = none → s.mstate = .m5 →
      Step cfg s (.sendStatus stopPendingStatus)
        { s with mstate := .m6, lastReported := stopPendingStatus,
                 statusSent := .report stopPendingStatus :: s.statusSent,
                 logs := .stopping :: s.logs }
  | frameworkStopped {s : ExecState} :
      s.exited = none → s.mstate = .m6 →
      Step cfg s .frameworkStopped
        { s with mstate := .m7, lastReported := stoppedStatus,
                 statusSent := .report stoppedStatus :: s.statusSent }
  | exitProc {s : ExecState} :
      s.exited = none → s.mstate = .m7 →
      Step cfg s .exitProc { s with exited := some 0 }
  | sampleOk {s : ExecState} {n : DateTime} {h mi : Int} :
      s.exited = none → s.gstate = .g0 →
      dtAbs n = s.clock → parseHM cfg.At = some (h, mi) →
      Step cfg s (.sample n)
        { s with gstate := .g1,
                 dur := some (dateTimeAbs n.year n.month (n.day + cfg.AfterDays) h mi 0 - dtAbs n),
                 logs := .computedFireTime :: s.logs }
  | sampleFail {s : ExecState} {n : DateTime} :
      s.exited = none → s.gstate = .g0 →
      dtAbs n = s.clock → parseHM cfg.At = none →
      Step cfg s (.sample n)
        { s with exited := some 1, logs := .parseTimeFailed :: s.logs }
  | armTimer {s : ExecState} {d : Int} :
      s.exited = none → s.gstate = .g1 → s.dur = some d →
      Step cfg s .armTimer { s with gstate := .g2, timer := some (s.clock + d) }
  | fireOk {s : ExecState} {dl : Int} :
      s.exited = none → s.gstate = .g2 → s.timer = some dl → dl ≤ s.clock →
      Step cfg s (.fire true)
        { s with gstate := .g3, rebootCalls := s.rebootCalls + 1,
                 logs := .rebootSuccess :: .rebootingSystem :: s.logs }
  | fireFail {s : ExecState} {dl : Int} :
      s.exited = none → s.gstate = .g2 → s.timer = some dl → dl ≤ s.clock →
      Step cfg s (.fire false)
        { s with gstate := .g3, rebootCalls := s.rebootCalls + 1,
                 exited := some 1,
                 logs := .rebootFailed :: .rebootingSystem :: s.logs }
  | recvDoneWait {s : ExecState} :
      s.exited = none → s.gstate = .g2 → s.doneSignaled = true →
      Step cfg s .recvDoneWait { s with gstate := .g3, timer := none }

/-- Reflexive-transitive closure of `Step`, collecting the labels. -/
inductive Steps (cfg : Config) : ExecState → List Label → ExecState → Prop
  | refl (s : ExecState) : Steps cfg s [] s
  | step {s : ExecState} {l : Label} {s' : ExecState} {tr : List Label} {s'' : ExecState} :
      Step cfg s l s' → Steps cfg s' tr s'' → Steps cfg s (l :: tr) s''

/-- The state at the start of `Execute`, at absolute time `c0`. -/
def initState (c0 : Int) : ExecState where
  clock := c0
  mstate := .m0
  gstate := .gNone
  dur := none
  timer := none
  doneSignaled := false
  pending := []
  lastReported := stoppedStatus
  statusSent := []
  rebootCalls := 0
  logs := []
  exited := none

/-- The lifecycle states reported to the supervisor (Interrogate echoes are
replies, not lifecycle reports), most recent first. -/
def lifecycleReports (evs : List StatusEvent) : List SvcState :=
  evs.filterMap (fun e =>
    match e with
    | .report st => some st.state
    | .echo _ => none)

/-- The label of accepting a Stop or Shutdown control. -/
def isStopAccept (l : Label) : Prop :=
  l = .acceptCmd .stop ∨ l = .acceptCmd .shutdown

/-- Config `{after_days: 0, at: "23:50"}`, used in concrete runs. -/
def cfg2350 : Config := ⟨0, "23:50"⟩

/-- Config `{after_days: 0, at: "00:00"}`, used in concrete runs. -/
def cfgMidnight : Config := ⟨0, "00:00"⟩

/-- A concrete observation instant, 2024-01-01T10:00:00 local time. -/
def nowJan1 : DateTime := ⟨2024, 1, 1, 10, 0, 0⟩

theorem Step.exited_none_pre {cfg : Config} {s : ExecState} {l : Label} {s' : ExecState}
    (h : Step cfg s l s') : s.exited = none := by
  cases h <;> assumption

theorem Step.doneSignaled_eq {cfg : Config} {s : ExecState} {l : Label} {s' : ExecState}
    (h : Step cfg s l s') : s'.doneSignaled = s.doneSignaled := by
  cases h <;> rfl

theorem Steps.append {cfg : Config} {s : ExecState} {tr1 : List Label} {s' : ExecState}
    {tr2 : List Label} {s'' : ExecState}
    (h1 : Steps cfg s tr1 s') (h2 : Steps cfg s' tr2 s'') : Steps cfg s (tr1 ++ tr2) s'' := by
  induction h1 with
  | refl => exact h2
  | step hs _ ih => exact .step hs (ih h2)

theorem Steps.preserve {cfg : Config} (P : ExecState → Prop)
    (hstep : ∀ {s : ExecState} {l : Label} {s' : ExecState}, Step cfg s l s' → P s → P s')
    {s : ExecState} {tr : List Label} {s' : ExecState}
    (h : Steps cfg s tr s') (hp : P s) : P s' := by
  induction h with
  | refl => exact hp
  | step hs _ ih => exact ih (hstep hs hp)

theorem step_reboot_inv {cfg : Config} {s : ExecState} {l : Label} {s' : ExecState}
    (h : Step cfg s l s')
    (hi : (s.mstate = .m0 ∨ s.mstate = .m1 ∨ s.mstate = .m2 → s.gstate = .gNone) ∧
      (s.gstate ≠ .g3 → s.rebootCalls = 0) ∧ s.rebootCalls ≤ 1) :
    (s'.mstate = .m0 ∨ s'.mstate = .m1 ∨ s'.mstate = .m2 → s'.gstate = .gNone) ∧
      (s'.gstate ≠ .g3 → s'.rebootCalls = 0) ∧ s'.rebootCalls ≤ 1 := by
  obtain ⟨hg, h0, h1⟩ := hi
  cases h <;> simp_all

theorem steps_reboot_le_one {cfg : Config} {c0 : Int} {tr : List Label} {s' : ExecState}
    (h : Steps cfg (initState c0) tr s') : s'.rebootCalls ≤ 1 :=
  (Steps.preserve
    (fun s => (s.mstate = .m0 ∨ s.mstate = .m1 ∨ s.mstate = .m2 → s.gstate = .gNone) ∧
      (s.gstate ≠ .g3 → s.rebootCalls = 0) ∧ s.rebootCalls ≤ 1)
    (fun hs hp => step_reboot_inv hs hp) h
    ⟨fun _ => rfl, fun _ => rfl, by simp [initState]⟩).2.2

theorem step_reboot_increase {cfg : Config} {s : ExecState} {l : Label} {s' : ExecState}
    (h : Step cfg s l s') (hinc : s.rebootCalls < s'.rebootCalls) :
    ∃ ok dl, l = .fire ok ∧ s.gstate = .g2 ∧ s.timer = some dl ∧ dl ≤ s.clock ∧
      ∀ c, l ≠ .acceptCmd c := by
  cases h <;> try (exfalso; simp_all; done)
  case fireOk dl h1 h2 h3 h4 => exact ⟨true, dl, rfl, h2, h3, h4, by simp⟩
  case fireFail dl h1 h2 h3 h4 => exact ⟨false, dl, rfl, h2, h3, h4, by simp⟩

theorem lifecycleReports_echo (cs : Status) (evs : List StatusEvent) :
    lifecycleReports (.echo cs :: evs) = lifecycleReports evs := rfl

theorem lifecycleReports_report (st : Status) (evs : List StatusEvent) :
    lifecycleReports (.report st :: evs) = st.state :: lifecycleReports evs := rfl

theorem step_loop_stuck {cfg : Config} {s : ExecState} {l : Label} {s' : ExecState}
    (h : Step cfg s l s') (hm : s.mstate = .m4) (hd : s.doneSignaled = false)
    (hl : ¬ isStopAccept l) :
    s'.mstate = .m4 ∧ s'.doneSignaled = false ∧
      lifecycleReports s'.statusSent = lifecycleReports s.statusSent := by
  cases h <;> simp_all [isStopAccept, lifecycleReports_echo]

theorem steps_loop_stuck {cfg : Config} {s : ExecState} {tr : List Label} {s' : ExecState}
    (h : Steps cfg s tr s') (hm : s.mstate = .m4) (hd : s.doneSignaled = false)
    (hl : ∀ l ∈ tr, ¬ isStopAccept l) :
    s'.mstate = .m4 ∧ s'.doneSignaled = false ∧
      lifecycleReports s'.statusSent = lifecycleReports s.statusSent := by
  induction h with
  | refl => exact ⟨hm, hd, rfl⟩
  | @step s1 l1 s2 tr1 s3 hs hrest ih =>
    have h1 := step_loop_stuck hs hm hd (hl l1 (by simp))
    have h2 := ih h1.1 h1.2.1 (fun l hli => hl l (by simp [hli]))
    exact ⟨h2.1, h2.2.1, h2.2.2.trans h1.2.2⟩

theorem step_parsefail_inv {cfg : Config} {s : ExecState} {l : Label} {s' : ExecState}
    (hAt : parseHM cfg.At = none) (h : Step cfg s l s')
    (hi : (s.gstate = .gNone ∨ s.gstate = .g0) ∧ s.timer = none ∧
      s.rebootCalls = 0 ∧ s.dur = none) :
    (s'.gstate = .gNone ∨ s'.gstate = .g0) ∧ s'.timer = none ∧
      s'.rebootCalls = 0 ∧ s'.dur = none := by
  cases h <;> simp_all

theorem parse2350 : parseHM "23:50" = some (23, 50) := by decide

theorem parse0000 : parseHM "00:00" = some (0, 0) := by decide

/-- Claim C3: for every instant `now` and every configuration whose
time-of-day string parses as HH:MM, the Fire-Time Calculator
deterministically returns the duration to the local-timezone instant
`dateAt(now.year, now.month, now.day + delayDays, hour, minute, 0)`;
in particular, for `now = 2024-01-01T10:00:00`, `delayDays = 300`,
`at = "23:50"`, the computed fire time is 2024-10-27T23:50:00 local time. -/
theorem fireTimeFormula :
    (∀ (now : DateTime) (cfg : Config) (h mi : Int), parseHM cfg.At = some (h, mi) →
      calculateSleepDuration now cfg =
        some (dateTimeAbs now.year now.month (now.day + cfg.AfterDays) h mi 0 - dtAbs now)) ∧
    calculateSleepDuration ⟨2024, 1, 1, 10, 0, 0⟩ ⟨300, "23:50"⟩ =
      some (dateTimeAbs 2024 10 27 23 50 0 - dtAbs ⟨2024, 1, 1, 10, 0, 0⟩) := by
  constructor
  · intro now cfg h mi hp
    simp [calculateSleepDuration, hp]
  · decide

/-- Witness for C3 at the spec's example input. -/
theorem fireTimeFormula_witness :
    parseHM (Config.mk 300 "23:50").At = some (23, 50) ∧
    calculateSleepDuration nowJan1 ⟨300, "23:50"⟩ =
      some (dateTimeAbs nowJan1.year nowJan1.month (nowJan1.day + (Config.mk 300 "23:50").AfterDays)
        23 50 0 - dtAbs nowJan1) :=
  ⟨by decide, fireTimeFormula.1 nowJan1 ⟨300, "23:50"⟩ 23 50 (by decide)⟩

/-- Claim C10: if the configuration file does not exist, the loader creates
it with exactly the default contents `after_days: 300` and `at: "23:50"` and
loads those values; if the file exists, its contents are left unchanged and
parsed as-is. -/
theorem loadConfigDefaults :
    loadConfig ⟨none⟩ =
      (⟨some defaultConfigContents⟩, some ⟨300, "23:50"⟩) ∧
    ∀ c : String, loadConfig ⟨some c⟩ = (⟨some c⟩, yamlUnmarshalConfig c) := by
  constructor
  · decide
  · intro c; rfl

/-- Witness for C10 on a concrete pre-existing configuration file. -/
theorem loadConfigDefaults_witness :
    loadConfig ⟨some "after_days: 7\nat: \"01:02\""⟩ =
      (⟨some "after_days: 7\nat: \"01:02\""⟩,
        yamlUnmarshalConfig "after_days: 7\nat: \"01:02\"") :=
  loadConfigDefaults.2 "after_days: 7\nat: \"01:02\""

/-- Claim C2: across any run, the Reboot Invoker is called zero or one
times, never more, and any call occurs only via the timer-fire path (the
timer armed and its deadline reached), never via a signal path. -/
theorem atMostOnceFire :
    (∀ (cfg : Config) (c0 : Int) (tr : List Label) (s' : ExecState),
      Steps cfg (initState c0) tr s' → s'.rebootCalls ≤ 1) ∧
    (∀ (cfg : Config) (s : ExecState) (l : Label) (s' : ExecState),
      Step cfg s l s' → s.rebootCalls < s'.rebootCalls →
      ∃ ok dl, l = .fire ok ∧ s.gstate = .g2 ∧ s.timer = some dl ∧ dl ≤ s.clock ∧
        ∀ c, l ≠ .acceptCmd c) :=
  ⟨fun _ _ _ _ h => steps_reboot_le_one h,
   fun _ _ _ _ h hinc => step_reboot_increase h hinc⟩

/-- Witness for C2 on a concrete (empty) run. -/
theorem atMostOnceFire_witness : (initState 0).rebootCalls ≤ 1 :=
  atMostOnceFire.1 cfg2350 0 [] (initState 0) (Steps.refl _)

/-- Claim C5: if the configured time-of-day string fails to parse as HH:MM,
the scheduler never arms the timer and never calls the Reboot Invoker in any
run, and a run exists in which the process exits fatally with the parse
failure logged. -/
theorem configTimeParseFatal :
    ∀ (cfg : Config) (c0 : Int), parseHM cfg.At = none →
      (∀ (tr : List Label) (s' : ExecState), Steps cfg (initState c0) tr s' →
        s'.rebootCalls = 0 ∧ s'.timer = none ∧ s'.gstate ≠ .g2) ∧
      (∃ (tr : List Label) (s' : ExecState), Steps cfg (initState c0) tr s' ∧
        s'.exited = some 1 ∧ LogEv.parseTimeFailed ∈ s'.logs) := by
  intro cfg c0 hAt
  constructor
  · intro tr s' h
    have hi := Steps.preserve
      (fun s => (s.gstate = .gNone ∨ s.gstate = .g0) ∧ s.timer = none ∧
        s.rebootCalls = 0 ∧ s.dur = none)
      (fun hs hp => step_parsefail_inv hAt hs hp) h ⟨Or.inl rfl, rfl, rfl, rfl⟩
    refine ⟨hi.2.2.1, hi.2.1, ?_⟩
    rcases hi.1 with h1 | h1 <;> simp [h1]
  · have hdt : dtAbs ⟨1, 1, 1, 0, 0, c0⟩ = c0 := by
      simp [dtAbs, dateTimeAbs, dateAbs, daysBeforeYear, daysBeforeMonth,
        daysBeforeMonthCommon, leapYearsThrough]
    exact ⟨[.sendStatus startPendingStatus, .loadCfg, .spawn, .sample ⟨1, 1, 1, 0, 0, c0⟩], _,
      Steps.step (.sendStart rfl rfl) (Steps.step (.loadCfg rfl rfl)
        (Steps.step (.spawn rfl rfl) (Steps.step (.sampleFail rfl rfl hdt hAt) (Steps.refl _)))),
      rfl, by simp⟩

/-- Witness for C5 with the time-of-day `"23:5"`, which `time.Parse`
rejects because the minute field of layout `04` requires two digits. -/
theorem configTimeParseFatal_witness :
    (initState 7).rebootCalls = 0 ∧ (initState 7).timer = none ∧
      (initState 7).gstate ≠ .g2 :=
  (configTimeParseFatal ⟨300, "23:5"⟩ 7 (by decide)).1 [] (initState 7) (Steps.refl _)

/-- Claim C6: if the Reboot Invoker call fails (the shutdown command returns
an error), the failure is logged, the process exits with the non-zero exit
code 1, and the invocation is never retried (no step at all is possible from
the exited state). -/
theorem invokerFailureFatal :
    ∀ (cfg : Config) (s s' : ExecState), Step cfg s (.fire false) s' →
      s'.exited = some 1 ∧ LogEv.rebootFailed ∈ s'.logs ∧
      s'.rebootCalls = s.rebootCalls + 1 ∧
      ∀ (l : Label) (t : ExecState), ¬ Step cfg s' l t := by
  intro cfg s s' h
  cases h with
  | fireFail h1 h2 h3 h4 =>
    refine ⟨rfl, by simp, rfl, ?_⟩
    intro l t hstep
    simpa using Step.exited_none_pre hstep

/-- Witness for C6 at a concrete armed state whose shutdown command fails. -/
theorem invokerFailureFatal_witness :
    (⟨0, .m0, .g3, none, some 0, false, [], stoppedStatus, [], 1,
      [.rebootFailed, .rebootingSystem], some 1⟩ : ExecState).exited = some 1 :=
  (invokerFailureFatal cfg2350 { initState 0 with gstate := .g2, timer := some 0 } _
    (Step.fireFail rfl rfl rfl (le_refl 0))).1

theorem interrogate_round {cfg : Config} {s : ExecState}
    (h1 : s.exited = none) (h2 : s.mstate = .m4) (h3 : s.pending = []) :
    Steps cfg s [.enq .interrogate, .acceptCmd .interrogate]
      { s with statusSent := .echo s.lastReported :: s.statusSent } := by
  obtain ⟨cl, ms, gs, du, ti, dn, pe, la, ss, rc, lo, ex⟩ := s
  have h1' : ex = none := h1
  have h2' : ms = .m4 := h2
  have h3' : pe = [] := h3
  subst h1'; subst h2'; subst h3'
  exact Steps.step (Step.enq rfl)
    (Steps.step (Step.acceptInterrogate rfl rfl rfl) (Steps.refl _))

/-- Claim C7: any number of Interrogate signals delivered and accepted while
the machine is in the Running loop leave the lifecycle state (and the armed
wait) unchanged and each produces a status reply echoing the host's current
status back to the supervisor. -/
theorem interrogateTransparency :
    ∀ (cfg : Config) (n : Nat) (s : ExecState),
      s.exited = none → s.mstate = .m4 → s.pending = [] →
      ∃ s', Steps cfg s
          ((List.replicate n [Label.enq .interrogate, Label.acceptCmd .interrogate]).flatten) s' ∧
        s' = { s with statusSent := List.replicate n (.echo s.lastReported) ++ s.statusSent } ∧
        s'.mstate = .m4 ∧ s'.gstate = s.gstate ∧ s'.timer = s.timer ∧
        s'.rebootCalls = s.rebootCalls := by
  intro cfg n
  induction n with
  | zero =>
    intro s h1 h2 h3
    exact ⟨s, Steps.refl s, rfl, h2, rfl, rfl, rfl⟩
  | succ k ih =>
    intro s h1 h2 h3
    obtain ⟨s', hch, heq, hm, hg, ht, hr⟩ :=
      ih { s with statusSent := .echo s.lastReported :: s.statusSent } h1 h2 h3
    refine ⟨s', ?_, ?_, hm, hg, ht, hr⟩
    · have := Steps.append (interrogate_round h1 h2 h3) hch
      simpa using this
    · rw [heq]
      simp [List.replicate_succ', List.append_assoc]

/-- Witness for C7: two Interrogate rounds from a concrete Running state. -/
theorem interrogateTransparency_witness :
    ∃ s', Steps cfg2350 { initState 0 with mstate := .m4 }
        ((List.replicate 2 [Label.enq .interrogate, Label.acceptCmd .interrogate]).flatten) s' ∧
      s' = { ({ initState 0 with mstate := .m4 } : ExecState) with
             statusSent := List.replicate 2
               (.echo ({ initState 0 with mstate := .m4 } : ExecState).lastReported) ++
               ({ initState 0 with mstate := .m4 } : ExecState).statusSent } ∧
      s'.mstate = .m4 ∧ s'.gstate = ({ initState 0 with mstate := .m4 } : ExecState).gstate ∧
      s'.timer = ({ initState 0 with mstate := .m4 } : ExecState).timer ∧
      s'.rebootCalls = ({ initState 0 with mstate := .m4 } : ExecState).rebootCalls :=
  interrogateTransparency cfg2350 2 { initState 0 with mstate := .m4 } rfl rfl rfl

/-- Claim C8: with `delayDays = 0` and a time-of-day strictly earlier than
`now`, the computed wait duration is at most zero and the scheduler can fire
at once — the timer branch is taken with no clock advance at all. -/
theorem immediateFireEdgeCase :
    ∀ (cfg : Config) (now : DateTime) (h mi : Int),
      cfg.AfterDays = 0 → parseHM cfg.At = some (h, mi) →
      dateTimeAbs now.year now.month now.day h mi 0 < dtAbs now →
      ∃ d, calculateSleepDuration now cfg = some d ∧ d ≤ 0 ∧
        ∃ sF, Steps cfg (initState (dtAbs now))
            [.sendStatus startPendingStatus, .loadCfg, .spawn, .sample now,
              .armTimer, .fire true] sF ∧
          sF.rebootCalls = 1 := by
  intro cfg now h mi hA hp hlt
  have hd : dateTimeAbs now.year now.month (now.day + cfg.AfterDays) h mi 0 - dtAbs now ≤ 0 := by
    rw [hA, add_zero]
    omega
  refine ⟨_, by simp [calculateSleepDuration, hp], hd, ?_⟩
  refine ⟨_, Steps.step (.sendStart rfl rfl) (Steps.step (.loadCfg rfl rfl)
    (Steps.step (.spawn rfl rfl) (Steps.step (.sampleOk rfl rfl rfl hp)
    (Steps.step (.armTimer rfl rfl rfl) (Steps.step (.fireOk rfl rfl rfl ?_)
    (Steps.refl _)))))), rfl⟩
  show dtAbs now + (dateTimeAbs now.year now.month (now.day + cfg.AfterDays) h mi 0 - dtAbs now) ≤
    dtAbs now
  omega

/-- Witness for C8: `delayDays = 0`, `at = "00:00"`, `now` at 10:00. -/
theorem immediateFireEdgeCase_witness :
    ∃ d, calculateSleepDuration nowJan1 cfgMidnight = some d ∧ d ≤ 0 ∧
      ∃ sF, Steps cfgMidnight (initState (dtAbs nowJan1))
          [.sendStatus startPendingStatus, .loadCfg, .spawn, .sample nowJan1,
            .armTimer, .fire true] sF ∧
        sF.rebootCalls = 1 :=
  immediateFireEdgeCase cfgMidnight nowJan1 0 0 rfl (by decide) (by decide)

/-- Claim C1, refuted on the code: the `done` channel is never signalled, so
a Stop accepted strictly before the timer's deadline does not cancel the
pending timer, and an interleaving exists in which the Reboot Invoker is
still called afterwards.  The run below accepts a Stop at 10:00 with the
deadline at 23:50 the same day, yet the timer then fires and `reboot()`
runs. -/
theorem noFireAfterCancel_defect :
    ∃ s1 s2 sF dl,
      Steps cfg2350 (initState (dtAbs nowJan1))
        [.sendStatus startPendingStatus, .loadCfg, .spawn, .sendStatus runningStatus,
          .sample nowJan1, .armTimer, .enq .stop] s1 ∧
      s1.timer = some dl ∧ s1.clock < dl ∧
      Step cfg2350 s1 (.acceptCmd .stop) s2 ∧
      Steps cfg2350 s2 [.sendStatus stopPendingStatus, .tick dl, .fire true] sF ∧
      sF.rebootCalls = 1 := by
  exact ⟨_, _, _, _,
    Steps.step (.sendStart rfl rfl) (Steps.step (.loadCfg rfl rfl)
      (Steps.step (.spawn rfl rfl) (Steps.step (.sendRunning rfl rfl)
      (Steps.step (.sampleOk rfl rfl rfl parse2350) (Steps.step (.armTimer rfl rfl rfl)
      (Steps.step (.enq rfl) (Steps.refl _))))))),
    rfl, by decide,
    Step.acceptStop rfl rfl rfl (Or.inl rfl),
    Steps.step (.sendStopPending rfl rfl) (Steps.step (.tick rfl (by decide))
      (Steps.step (.fireOk rfl rfl rfl (le_refl _)) (Steps.refl _))),
    rfl⟩

/-- Claim C4, refuted on the code for the timer-fire transition: after the
timer fires and `reboot()` runs, the wait goroutine never signals `done`, so
the main loop stays in the Running select loop; no `StopPending` is ever
reported unless the supervisor later delivers a Stop/Shutdown control.  The
lifecycle reports that did occur are in order and without repeats, but the
fire does not produce the Stopping transition the claim requires. -/
theorem fireWithoutStopTransition_defect :
    ∃ sF, Steps cfgMidnight (initState (dtAbs nowJan1))
        [.sendStatus startPendingStatus, .loadCfg, .spawn, .sendStatus runningStatus,
          .sample nowJan1, .armTimer, .fire true] sF ∧
      sF.rebootCalls = 1 ∧ sF.mstate = .m4 ∧
      lifecycleReports sF.statusSent = [.running, .startPending] ∧
      ∀ (tr : List Label) (s' : ExecState), Steps cfgMidnight sF tr s' →
        (∀ l ∈ tr, ¬ isStopAccept l) →
        s'.mstate = .m4 ∧ lifecycleReports s'.statusSent = lifecycleReports sF.statusSent := by
  exact ⟨_,
    Steps.step (.sendStart rfl rfl) (Steps.step (.loadCfg rfl rfl)
      (Steps.step (.spawn rfl rfl) (Steps.step (.sendRunning rfl rfl)
      (Steps.step (.sampleOk rfl rfl rfl parse0000) (Steps.step (.armTimer rfl rfl rfl)
      (Steps.step (.fireOk rfl rfl rfl (by decide)) (Steps.refl _))))))),
    rfl, rfl, rfl,
    fun tr s' h hl =>
      (fun hst => ⟨hst.1, hst.2.2⟩) (steps_loop_stuck h rfl rfl hl)⟩

theorem daysInMonth_bounds (y m : Int) : 28 ≤ daysInMonth y m ∧ daysInMonth y m ≤ 31 := by
  unfold daysInMonth; split <;> split <;> omega

theorem leapYearsThrough_step (y : Int) :
    leapYearsThrough y - leapYearsThrough (y - 1) = if isLeap y then 1 else 0 := by
  unfold leapYearsThrough isLeap
  simp only [Bool.and_eq_true, beq_iff_eq, Bool.or_eq_true, bne_iff_ne, ne_eq,
    decide_eq_true_eq]
  split <;> omega

theorem dateAbs_nextYM (y m : Int) (h1 : 1 ≤ m) (h2 : m ≤ 12) (k : Int) :
    dateAbs (nextYM y m).1 (nextYM y m).2 k = dateAbs y m (k + daysInMonth y m) := by
  rcases eq_or_lt_of_le h2 with h12 | h12
  · subst h12
    have hstep := leapYearsThrough_step y
    by_cases hL : isLeap y = true <;>
      simp only [hL, if_true, if_false, Bool.false_eq_true] at hstep <;>
      simp [nextYM, dateAbs, daysBeforeYear, daysBeforeMonth, daysBeforeMonthCommon,
        daysInMonth, hL] <;>
      omega
  · have h2' : m ≤ 11 := by omega
    interval_cases m <;> by_cases hL : isLeap y = true <;>
      simp [nextYM, dateAbs, daysBeforeMonth, daysBeforeMonthCommon, daysInMonth, hL] <;>
      omega

theorem dateAbs_prevYM (y m : Int) (h1 : 1 ≤ m) (h2 : m ≤ 12) (k : Int) :
    dateAbs (prevYM y m).1 (prevYM y m).2 (k + daysInMonth (prevYM y m).1 (prevYM y m).2) =
      dateAbs y m k := by
  rcases eq_or_lt_of_le h1 with h11 | h11
  · have hm : m = 1 := h11.symm
    subst hm
    have h := dateAbs_nextYM (y - 1) 12 (by omega) (by omega) k
    simp only [nextYM, prevYM, if_pos (by omega : (12 : Int) ≤ 12),
      if_pos (by omega : (1 : Int) ≤ 1)] at h ⊢
    rw [sub_add_cancel] at h
    exact h.symm
  · have h := dateAbs_nextYM y (m - 1) (by omega) (by omega) k
    simp only [nextYM, prevYM, if_neg (by omega : ¬(12 : Int) ≤ m - 1),
      if_neg (by omega : ¬m ≤ (1 : Int))] at h ⊢
    rw [sub_add_cancel] at h
    exact h.symm

theorem normDate_spec (y m d : Int) :
    1 ≤ m → m ≤ 12 →
    1 ≤ (normDate y m d).2.1 ∧ (normDate y m d).2.1 ≤ 12 ∧
      1 ≤ (normDate y m d).2.2 ∧
      (normDate y m d).2.2 ≤ daysInMonth (normDate y m d).1 (normDate y m d).2.1 ∧
      dateAbs (normDate y m d).1 (normDate y m d).2.1 (normDate y m d).2.2 = dateAbs y m d := by
  induction y, m, d using normDate.induct with
  | case1 y m d hlt ih =>
    intro h1 h2
    rw [normDate, if_pos hlt]
    have hm : 1 ≤ (prevYM y m).2 ∧ (prevYM y m).2 ≤ 12 := by unfold prevYM; split <;> omega
    have hrec := ih hm.1 hm.2
    refine ⟨hrec.1, hrec.2.1, hrec.2.2.1, hrec.2.2.2.1, ?_⟩
    rw [hrec.2.2.2.2]
    exact dateAbs_prevYM y m h1 h2 d
  | case2 y m d hlt hle =>
    intro h1 h2
    rw [normDate, if_neg hlt, if_pos hle]
    exact ⟨h1, h2, show (1 : Int) ≤ d by omega, hle, rfl⟩
  | case3 y m d hlt hle ih =>
    intro h1 h2
    rw [normDate, if_neg hlt, if_neg hle]
    have hm : 1 ≤ (nextYM y m).2 ∧ (nextYM y m).2 ≤ 12 := by unfold nextYM; split <;> omega
    have hrec := ih hm.1 hm.2
    refine ⟨hrec.1, hrec.2.1, hrec.2.2.1, hrec.2.2.2.1, ?_⟩
    rw [hrec.2.2.2.2]
    have h := dateAbs_nextYM y m h1 h2 (d - daysInMonth y m)
    rwa [sub_add_cancel] at h

/-- Claim C9: the fire-time computation is total for every integer
`delayDays`, including negative values (no validation enforces
`delayDays ≥ 0`), and the out-of-range day-of-month `now.day + delayDays` is
normalized by calendar rollover into adjacent months or years: the computed
fire instant always equals a valid calendar date, never an error. -/
theorem delayDaysRollover :
    ∀ (now : DateTime) (cfg : Config) (h mi : Int),
      parseHM cfg.At = some (h, mi) → 1 ≤ now.month → now.month ≤ 12 →
      ∃ d, calculateSleepDuration now cfg = some d ∧
      ∃ y' m' d', 1 ≤ m' ∧ m' ≤ 12 ∧ 1 ≤ d' ∧ d' ≤ daysInMonth y' m' ∧
        dateTimeAbs now.year now.month (now.day + cfg.AfterDays) h mi 0 =
          dateTimeAbs y' m' d' h mi 0 := by
  intro now cfg h mi hp hm1 hm2
  have hc : calculateSleepDuration now cfg =
      some (dateTimeAbs now.year now.month (now.day + cfg.AfterDays) h mi 0 - dtAbs now) := by
    simp [calculateSleepDuration, hp]
  refine ⟨_, hc, ?_⟩
  obtain ⟨a1, a2, a3, a4, a5⟩ := normDate_spec now.year now.month (now.day + cfg.AfterDays) hm1 hm2
  refine ⟨_, _, _, a1, a2, a3, a4, ?_⟩
  unfold dateTimeAbs
  rw [a5]

/-- Witness for C9 with the negative delay `-1` from 2024-01-01. -/
theorem delayDaysRollover_witness :
    ∃ d, calculateSleepDuration nowJan1 ⟨-1, "23:50"⟩ = some d ∧
      ∃ y' m' d', 1 ≤ m' ∧ m' ≤ 12 ∧ 1 ≤ d' ∧ d' ≤ daysInMonth y' m' ∧
        dateTimeAbs nowJan1.year nowJan1.month (nowJan1.day + (Config.mk (-1) "23:50").AfterDays)
          23 50 0 = dateTimeAbs y' m' d' 23 50 0 :=
  delayDaysRollover nowJan1 ⟨-1, "23:50"⟩ 23 50 (by decide) (by decide) (by decide)
